import Mathlib

set_option maxHeartbeats 1000000
set_option maxRecDepth 100000

/-!
Verification development for pinymotion (a motion-triggered video recorder):
a shallow embedding of `MotionVectorReader.analyse` (magnitude field, 4-connected
region analysis, debounced trigger), of `MotionRecorder.save_buffer` /
`append_buffer` / the flushing cycle of `run`, and of the trigger-wait primitive,
together with theorems settling the specification claims C1-C10.
-/

/-! ## Part 1: the debounce engine

`MotionVectorReader.__init__` (line 58) creates `self._last_frames = deque(maxlen=frames)`,
and `analyse` (lines 102-110) runs, once per frame, after computing the boolean
`motion` for the frame:

    self._last_frames.append(motion)
    if motion:
        if not self.motion() and self._last_frames.count(True) >= self.frames:
            self.set()
    elif self.motion() and self._last_frames.count(True) < self.frames:
        self.clear()

The shared `threading.Event` starts cleared, so the initial engine state is an
empty window with `triggered = false`.
-/

/-- The sensitivity configuration of `MotionVectorReader.__init__`:
`motionlength` (minimum vector magnitude), `area` (minimum connected block
count), `frames` (window capacity and threshold). -/
structure Config where
  motionlength : Nat
  area : Nat
  frames : Nat

/-- The mutable debounce state of the reader: the `_last_frames` deque
(newest entry last) and the `trigger` event flag. -/
structure Engine where
  window : List Bool
  triggered : Bool
deriving DecidableEq

/-- Initial state: empty deque, trigger cleared. -/
def engineInit : Engine := { window := [], triggered := false }

/-- `deque(maxlen = n).append(b)`: append `b`, dropping the oldest entry when
the deque already holds `n` entries (for `n = 0` the deque stays empty). -/
def pushWindow (n : Nat) (l : List Bool) (b : Bool) : List Bool :=
  (l ++ [b]).drop (l.length + 1 - n)

/-- One call of the trigger-update part of `analyse` (lines 102-110), given the
frame-level decision `motion`: push into the deque, then
set when `motion ∧ ¬triggered ∧ count(True) ≥ frames`, else
clear when `¬motion ∧ triggered ∧ count(True) < frames`. -/
def analyseStep (cfg : Config) (st : Engine) (motion : Bool) : Engine :=
  let w2 := pushWindow cfg.frames st.window motion
  if motion = true then
    if st.triggered = false ∧ cfg.frames ≤ w2.count true then
      { window := w2, triggered := true }
    else
      { window := w2, triggered := st.triggered }
  else
    if st.triggered = true ∧ w2.count true < cfg.frames then
      { window := w2, triggered := false }
    else
      { window := w2, triggered := st.triggered }

/-- The engine state after a sequence of `analyse` calls whose frame-level
decisions are `bs`, starting from the initial state. -/
def runBools (cfg : Config) (bs : List Bool) : Engine :=
  bs.foldl (analyseStep cfg) engineInit

/-- The debounce rule as the spec words it (claim C10): the offset rule is not
guarded by the frame decision being false; it applies whenever the onset rule
does not and `triggered ∧ count(True) < frames`. -/
def altStep (cfg : Config) (st : Engine) (motion : Bool) : Engine :=
  let w2 := pushWindow cfg.frames st.window motion
  if motion = true ∧ st.triggered = false ∧ cfg.frames ≤ w2.count true then
    { window := w2, triggered := true }
  else if st.triggered = true ∧ w2.count true < cfg.frames then
    { window := w2, triggered := false }
  else
    { window := w2, triggered := st.triggered }

/-- The invariant maintained by `analyse` on the debounce state: the deque
never exceeds its capacity, and while triggered the deque holds at least
`frames` true entries. -/
def EngineInv (cfg : Config) (st : Engine) : Prop :=
  st.window.length ≤ cfg.frames ∧
    (st.triggered = true → cfg.frames ≤ st.window.count true)

/-! ## Part 2: the vector-field analysis

`analyse` (lines 80-100) computes, from the per-block vector components:

    a = np.sqrt(np.square(x) + np.square(y)).clip(0, 255).astype(np.uint8)
    mask = (a > self.motionlength)
    labels, count = ndimage.label(mask)
    sizes = ndimage.sum(mask, labels, range(count + 1))
    largest = np.sort(sizes)[-1]
    mask = (sizes < max(largest, 2))[labels]; a[mask] = 0   # cleaned field
    motion = (largest >= self.area)

`scipy.ndimage.label` (an external library, default structuring element) labels
the 4-connected components of the active mask, component l having `sizes[l]`
blocks, with `sizes[0] = 0` for the background; components are numbered in
raster order of their first block.  We embed that semantics directly: the
component of an active block is its reflexive-transitive closure under
4-adjacency within the mask, computed by a saturating step function; the sizes
array is `0 ::` the component sizes listed by raster-minimal representative.
`np.sqrt` on integer sums of two squares of 8-bit components is exact enough in
float64 that the truncating uint8 cast yields exactly the integer floor square
root (clipped at 255), which is how we model the magnitude (`floorSqrt`,
characterised by `floorSqrt_spec`). -/

/-- A macroblock coordinate in an `h × w` motion-vector grid. -/
abbrev Cell (h w : Nat) := Fin h × Fin w

/-- One frame of raw motion-vector data: the per-block x and y components
(`a['x']`, `a['y']` in the source). -/
structure MVField (h w : Nat) where
  vx : Cell h w → Int
  vy : Cell h w → Int

/-- Fuel-driven ascent computing the integer square root: starting from a
lower bound `lo` with `lo² ≤ n`, increment while `(lo+1)² ≤ n`. -/
def floorSqrtAux : Nat → Nat → Nat → Nat
  | 0, _, lo => lo
  | fuel + 1, n, lo => if (lo + 1) * (lo + 1) ≤ n then floorSqrtAux fuel n (lo + 1) else lo

/-- The floor of the real square root of `n` (the greatest `k` with `k² ≤ n`);
see `floorSqrt_spec`.  This is what `np.sqrt(...).astype(np.uint8)` computes on
an integer that fits well inside float64. -/
def floorSqrt (n : Nat) : Nat := floorSqrtAux n n 0

/-- The magnitude field `a`: `uint8(clip(sqrt(x² + y²), 0, 255))`. -/
def mag {h w : Nat} (vf : MVField h w) (c : Cell h w) : Nat :=
  min (floorSqrt ((vf.vx c * vf.vx c + vf.vy c * vf.vy c).toNat)) 255

/-- The active mask `a > motionlength`. -/
def maskB (ml : Nat) {h w : Nat} (vf : MVField h w) (c : Cell h w) : Bool :=
  decide (ml < mag vf c)

/-- All cells of the grid, in raster order (row-major, as numpy stores them). -/
def cellList (h w : Nat) : List (Cell h w) :=
  (List.finRange h).flatMap (fun i => (List.finRange w).map (fun j => (i, j)))

/-- 4-connectivity of the grid (the default structuring element of
`ndimage.label`): horizontally or vertically adjacent cells. -/
def adjB {h w : Nat} (c d : Cell h w) : Bool :=
  (decide (c.1 = d.1) && (decide (c.2.val + 1 = d.2.val) || decide (d.2.val + 1 = c.2.val))) ||
  (decide (c.2 = d.2) && (decide (c.1.val + 1 = d.1.val) || decide (d.1.val + 1 = c.1.val)))

/-- Adjacency within the active mask: both endpoints active and 4-adjacent. -/
def rB (ml : Nat) {h w : Nat} (vf : MVField h w) (c d : Cell h w) : Bool :=
  maskB ml vf c && maskB ml vf d && adjB c d

/-- One saturation step of component computation: add every cell adjacent (in
the mask) to the current set. -/
def stepL (ml : Nat) {h w : Nat} (vf : MVField h w) (S : List (Cell h w)) :
    List (Cell h w) :=
  (cellList h w).filter (fun d => decide (d ∈ S) || S.any (fun c => rB ml vf c d))

/-- Iterated saturation. -/
def reachAux (ml : Nat) {h w : Nat} (vf : MVField h w) :
    Nat → List (Cell h w) → List (Cell h w)
  | 0, S => S
  | n + 1, S => reachAux ml vf n (stepL ml vf S)

/-- The 4-connected component of `c` within the active mask (for active `c`):
`h*w` saturation steps from `{c}` reach the fixpoint. -/
def reachL (ml : Nat) {h w : Nat} (vf : MVField h w) (c : Cell h w) :
    List (Cell h w) :=
  reachAux ml vf (h * w) [c]

/-- The block count of the component of `c` (`sizes[labels[c]]` for active `c`). -/
def compSize (ml : Nat) {h w : Nat} (vf : MVField h w) (c : Cell h w) : Nat :=
  ((cellList h w).filter (fun d => decide (d ∈ reachL ml vf c))).length

/-- Raster index of a cell (the order in which `ndimage.label` numbers
components by their first block). -/
def cellIdx {h w : Nat} (c : Cell h w) : Nat := c.1.val * w + c.2.val

/-- `c` is the representative (raster-first block) of its component. -/
def isRep (ml : Nat) {h w : Nat} (vf : MVField h w) (c : Cell h w) : Bool :=
  maskB ml vf c &&
    (cellList h w).all (fun d => !(decide (d ∈ reachL ml vf c)) || decide (cellIdx c ≤ cellIdx d))

/-- The component representatives in label order. -/
def compsList (ml : Nat) {h w : Nat} (vf : MVField h w) : List (Cell h w) :=
  (cellList h w).filter (fun c => isRep ml vf c)

/-- `count`: the number of labelled components returned by `ndimage.label`. -/
def labelCount (ml : Nat) {h w : Nat} (vf : MVField h w) : Nat :=
  (compsList ml vf).length

/-- `sizes = ndimage.sum(mask, labels, range(count+1))`: entry 0 is the
background (which contributes no active blocks), entry l the block count of
component l. -/
def sizesList (ml : Nat) {h w : Nat} (vf : MVField h w) : List Nat :=
  0 :: (compsList ml vf).map (compSize ml vf)

/-- `largest = np.sort(sizes)[-1]`: the maximum of the sizes array. -/
def largestRegion (ml : Nat) {h w : Nat} (vf : MVField h w) : Nat :=
  (sizesList ml vf).foldr max 0

/-- The frame-level decision `motion = (largest >= self.area)`. -/
def frameMotion (cfg : Config) {h w : Nat} (vf : MVField h w) : Bool :=
  decide (cfg.area ≤ largestRegion cfg.motionlength vf)

/-- The cleaned debug field stored in `self.field`:
`a[(sizes < max(largest,2))[labels]] = 0` zeroes every block whose region size
is below `max(largest, 2)`; background blocks (label 0, size 0) are always
zeroed, an active block keeps its magnitude iff its component has at least
`max(largest, 2)` blocks. -/
def cleanedField (ml : Nat) {h w : Nat} (vf : MVField h w) (c : Cell h w) : Nat :=
  if maskB ml vf c && decide (max (largestRegion ml vf) 2 ≤ compSize ml vf c) then
    mag vf c
  else 0

/-- A full `analyse` call: compute the frame decision from the vector field,
then update the debounce state. -/
def analyse (cfg : Config) {h w : Nat} (vf : MVField h w) (st : Engine) : Engine :=
  analyseStep cfg st (frameMotion cfg vf)

/-- The engine state after feeding a sequence of vector fields to `analyse`. -/
def runFields (cfg : Config) {h w : Nat} (fs : List (MVField h w)) : Engine :=
  fs.foldl (fun st vf => analyse cfg vf st) engineInit

/-! ## Part 3: the circular-buffer drain (`save_buffer`, `append_buffer`)

`picamera.PiCameraCircularIO` (an external collaborator, contract in spec §6)
is a file-like ring buffer: the encoder appends at the end, `read1` reads from
the current position, `seek(p)` moves it, `truncate()` at position 0 empties
the buffer, and `frames` enumerates buffered frame descriptors
`{position, frame_type, index}`.  We model its state as the buffered byte list,
the current read position, and the frame descriptor list; an output file is the
list of bytes written to it. -/

/-- `picamera.PiVideoFrameType`. -/
inductive PiVideoFrameType where
  | frame
  | keyFrame
  | spsHeader
  | motionData
deriving DecidableEq

/-- A buffered frame descriptor (element of `stream.frames`). -/
structure VFrame where
  position : Nat
  frameType : PiVideoFrameType
deriving DecidableEq

/-- The modelled state of the circular stream. -/
structure CircStream where
  frames : List VFrame
  data : List Nat
  pos : Nat
deriving DecidableEq

/-- The stream after `seek(0); truncate()`: empty, position 0 (the frame
descriptors of the discarded bytes are gone too). -/
def emptyStream : CircStream := { frames := [], data := [], pos := 0 }

/-- The header search of `save_buffer`: the first frame in `stream.frames`
whose type is `sps_header` (the loop breaks at the first match). -/
def findHeader (fs : List VFrame) : Option VFrame :=
  fs.find? (fun f => decide (f.frameType = PiVideoFrameType.spsHeader))

/-- The position `save_buffer` seeks to: the first SPS header's position if one
exists, otherwise the read position is left where it was. -/
def initialDrainPos (s : CircStream) : Nat :=
  match findHeader s.frames with
  | some f => f.position
  | none => s.pos

/-- The locked `while True: buf = stream.read1(); ...; stream.seek(0);
stream.truncate()` block shared by `save_buffer` and `append_buffer`: read
everything from the current position, then empty the buffer. -/
def drainStream (s : CircStream) : List Nat × CircStream :=
  (s.data.drop s.pos, emptyStream)

/-- `MotionRecorder.save_buffer` (lines 212-235): bail out with `(None, None)`
when the stream is absent or the camera is not recording; otherwise open the
output, seek to the first SPS header if any, drain, truncate, and return the
output (the drained bytes). -/
def save_buffer (recording : Bool) (stream : Option CircStream) :
    Option (List Nat) × Option CircStream :=
  match stream with
  | none => (none, none)
  | some s =>
    if recording = false then (none, some s)
    else
      let (out, s2) := drainStream { s with pos := initialDrainPos s }
      (some out, some s2)

/-- `MotionRecorder.append_buffer` (lines 237-251): no-op when the stream,
output, or recording session is unavailable; otherwise drain the buffer into
the output under the lock. -/
def append_buffer (recording : Bool) (stream : Option CircStream)
    (output : Option (List Nat)) : Option (List Nat) × Option CircStream :=
  match stream, output with
  | none, o => (o, none)
  | some s, none => (none, some s)
  | some s, some out =>
    if recording = false then (some out, some s)
    else
      let (chunk, s2) := drainStream s
      (some (out ++ chunk), some s2)

/-- An event of the producer/drain interleaving of claim C8: an encoder append
(outside the locked sections) or a periodic `append_buffer` drain. -/
inductive BufEv where
  | app (bs : List Nat)
  | drain
deriving DecidableEq

/-- Effect of one event on (bytes written to the sink so far, stream state).
An append adds bytes at the end of the buffer; a drain is the locked
read/seek/truncate block appending the read bytes to the sink. -/
def bufStep : List Nat × CircStream → BufEv → List Nat × CircStream
  | (out, s), BufEv.app bs => (out, { s with data := s.data ++ bs })
  | (out, s), BufEv.drain =>
    let (chunk, s2) := drainStream s
    (out ++ chunk, s2)

/-- All bytes the producer appends over an event sequence, in order. -/
def appendedBytes (evs : List BufEv) : List Nat :=
  evs.foldr (fun e acc => match e with | BufEv.app bs => bs ++ acc | BufEv.drain => acc) []

/-- The whole flushing cycle of claim C8: one initial `save_buffer` drain on
`s0` (recording active), then the event sequence.  Returns (bytes written to
the sink, final stream state). -/
def flushRun (s0 : CircStream) (evs : List BufEv) : List Nat × CircStream :=
  match save_buffer true (some s0) with
  | (some out0, some s1) => evs.foldl bufStep (out0, s1)
  | _ => ([], emptyStream)

/-! ## Part 4: the control flow of `run`'s trigger-handling cycle

One iteration of the triggered branch of `MotionRecorder.run` (lines 186-210):

    try:
        output, name = self.save_buffer()
        if output is not None:
            self._output = output
            try:
                while self._motion.motion():
                    self.wait(...); self.append_buffer(output)
            finally:
                output.close(); self._output = None
            logging.info(...)
    except picamera.PiCameraError as e:
        logging.error("while saving recording: " + e)
    finally:
        self._camera.led = False

We model the cycle's control flow against a fault script saying which
primitive operation raises which Python exception.  Note two facts of the
source: the `except` clause matches only `picamera.PiCameraError`, and its
handler concatenates a `str` with the exception object, which itself raises
`TypeError`; and `save_buffer` has no `try` around the drain that follows
`io.open`, so an exception there escapes with the file still open. -/

/-- The Python exception classes relevant to the cycle: camera-library errors
(matched by the `except` clause), OS-level I/O errors (not matched), and the
`TypeError` raised by `"..." + e` in the handler. -/
inductive PyExc where
  | piCameraError
  | osError
  | typeError
deriving DecidableEq

/-- A fault script for one cycle: whether `save_buffer`'s availability check
passes, what `io.open` raises (if anything), what the locked drain inside
`save_buffer` raises, and what each successive `append_buffer` iteration of
the flushing loop raises (`none` entries complete normally; the loop ends when
the list is exhausted, i.e. when motion clears). -/
structure Script where
  available : Bool
  openFault : Option PyExc
  drainFault : Option PyExc
  appendFaults : List (Option PyExc)
deriving DecidableEq

/-- Outcome of one cycle: how many sinks it opened, whether every opened sink
was closed by the end, and the exception (if any) escaping `run`'s loop body. -/
structure CycleOut where
  opened : Nat
  closedAll : Bool
  exn : Option PyExc
deriving DecidableEq

/-- First exception raised in the flushing loop, if any. -/
def firstFault : List (Option PyExc) → Option PyExc
  | [] => none
  | none :: rest => firstFault rest
  | some e :: _ => some e

/-- `run`'s `except picamera.PiCameraError` clause: a `PiCameraError` is
matched, but the handler's `"while saving recording: " + e` raises `TypeError`,
which escapes; every other exception is unmatched and escapes unchanged. -/
def exceptPiCamera : Option PyExc → Option PyExc
  | some PyExc.piCameraError => some PyExc.typeError
  | e => e

/-- One cycle of `run`'s triggered branch under a fault script. -/
def runCycle (sc : Script) : CycleOut :=
  if sc.available = false then
    -- save_buffer returns (None, None); `if output is not None` skips the event
    { opened := 0, closedAll := true, exn := none }
  else
    match sc.openFault with
    | some e =>
      -- io.open raised before any sink existed
      { opened := 0, closedAll := true, exn := exceptPiCamera (some e) }
    | none =>
      match sc.drainFault with
      | some e =>
        -- the drain inside save_buffer raised after io.open: no try/finally
        -- covers the open file there, so the sink leaks
        { opened := 1, closedAll := false, exn := exceptPiCamera (some e) }
      | none =>
        -- save_buffer returned the sink; the flushing loop's try/finally
        -- closes it on every exit path
        { opened := 1, closedAll := true, exn := exceptPiCamera (firstFault sc.appendFaults) }

/-! ## Part 5: the trigger wait primitive

`MotionVectorReader.wait` (lines 70-71) is `return self.trigger.wait(timeout)`
on a `threading.Event` (line 38).  Python's `Event.wait` blocks until the flag
is set or the timeout elapses and returns whether the flag was set — it is
level-triggered on "set", not edge-triggered on "change".  We model it
discretely: the trigger state is a trace over poll instants `0..timeout`, and
the wait returns true iff the flag is up at some instant within the wait. -/

/-- Discrete model of `threading.Event.wait(timeout)` against a trigger-state
trace: true iff the flag is set at some instant `≤ timeout`. -/
def eventWait (trace : Nat → Bool) (timeout : Nat) : Bool :=
  (List.range (timeout + 1)).any (fun t => trace t)

/-- A trace on which the trigger state never changes: constantly set. -/
def constTrueTrace : Nat → Bool := fun _ => true

/-! ## Part 6: concrete instances used by counterexamples and witnesses -/

/-- The configuration of claim C2 (and the source defaults):
`motionlength = 10`, `area = 25`, `frames = 4`. -/
def cfgScenario : Config := { motionlength := 10, area := 25, frames := 4 }

/-- An empty frame: no motion vectors at all. -/
def zeroF : MVField 5 6 :=
  { vx := fun _ => 0, vy := fun _ => 0 }

/-- A frame whose 30 macroblocks all move with magnitude 20 > 10: a single
connected active region of exactly 30 blocks. -/
def motionF : MVField 5 6 :=
  { vx := fun _ => 20, vy := fun _ => 0 }

/-- The 10-frame sequence of claim C2: frames 3-6 carry the 30-block region,
the rest are empty. -/
def scenarioFields : List (MVField 5 6) :=
  [zeroF, zeroF, motionF, motionF, motionF, motionF, zeroF, zeroF, zeroF, zeroF]

/-- The frame-level decisions of the scenario. -/
def scenarioBools : List Bool :=
  [false, false, true, true, true, true, false, false, false, false]

/-- Trigger state after the first `k` frames of the scenario. -/
def triggeredAfter (k : Nat) : Bool :=
  (runFields cfgScenario (scenarioFields.take k)).triggered

/-- A 2×2 field with a single active macroblock (region of size exactly 1). -/
def singleBlockF : MVField 2 2 :=
  { vx := fun c => if c = ((0 : Fin 2), (0 : Fin 2)) then 20 else 0,
    vy := fun _ => 0 }

/-- A 1×1 motionless field. -/
def zeroF11 : MVField 1 1 :=
  { vx := fun _ => 0, vy := fun _ => 0 }

/-- A stream holding bytes but no SPS header among its frame descriptors. -/
def c3Stream : CircStream :=
  { frames := [{ position := 0, frameType := PiVideoFrameType.keyFrame }],
    data := [7, 8], pos := 0 }

/-- A stream whose first SPS header sits at position 2 of 3 buffered bytes. -/
def c8Stream : CircStream :=
  { frames := [{ position := 2, frameType := PiVideoFrameType.spsHeader }],
    data := [1, 2, 3], pos := 0 }

/-- Events for the C8 counterexample: one producer append, one periodic drain. -/
def c8Events : List BufEv := [BufEv.app [4], BufEv.drain]

/-- Fault script: `io.open` raises an OSError when starting the recording. -/
def c4Script : Script :=
  { available := true, openFault := some PyExc.osError, drainFault := none,
    appendFaults := [] }

/-- Fault script: writing during `save_buffer`'s initial drain raises an
OSError after the sink was opened. -/
def c5Script : Script :=
  { available := true, openFault := none, drainFault := some PyExc.osError,
    appendFaults := [] }

/-- Fault script: one clean append iteration, then an OSError in the flushing
loop. -/
def c4LoopScript : Script :=
  { available := true, openFault := none, drainFault := none,
    appendFaults := [none, some PyExc.osError] }

/-- The debounce sequence reaching a triggered state with `frames = 4`. -/
def bs4 : List Bool := [true, true, true, true]

/-- A configuration with `area = 1`, letting a single active block raise the
frame decision (used to reach a triggered state on a small grid cheaply). -/
def cfgOne : Config := { motionlength := 10, area := 1, frames := 4 }

/-- A 2×2 motionless field. -/
def zeroF22 : MVField 2 2 :=
  { vx := fun _ => 0, vy := fun _ => 0 }

/-- Four frames of the single-block field: enough to trigger `cfgOne`. -/
def sblocks4 : List (MVField 2 2) :=
  [singleBlockF, singleBlockF, singleBlockF, singleBlockF]

/-- A fault-free cycle script: save succeeds, the flushing loop completes. -/
def cleanScript : Script :=
  { available := true, openFault := none, drainFault := none, appendFaults := [] }

/-- A cycle script for an inactive stream/session. -/
def idleScript : Script :=
  { available := false, openFault := none, drainFault := none, appendFaults := [] }

/-! ## Theorems: debounce engine (claims C1, C10) -/

theorem analyseStep_eq (cfg : Config) (st : Engine) (b : Bool) :
    analyseStep cfg st b =
      if b = true then
        if st.triggered = false ∧
            cfg.frames ≤ (pushWindow cfg.frames st.window b).count true then
          { window := pushWindow cfg.frames st.window b, triggered := true }
        else { window := pushWindow cfg.frames st.window b, triggered := st.triggered }
      else
        if st.triggered = true ∧
            (pushWindow cfg.frames st.window b).count true < cfg.frames then
          { window := pushWindow cfg.frames st.window b, triggered := false }
        else { window := pushWindow cfg.frames st.window b, triggered := st.triggered } :=
  rfl

theorem count_take_add_count_drop (l : List Bool) (k : Nat) :
    (l.take k).count true + (l.drop k).count true = l.count true := by
  rw [← List.count_append, List.take_append_drop]

theorem count_drop_ge (l : List Bool) (k : Nat) :
    l.count true - k ≤ (l.drop k).count true := by
  have h1 := count_take_add_count_drop l k
  have h2 : (l.take k).count true ≤ k := by
    have := List.count_le_length (a := true) (l := l.take k)
    have := List.length_take k l
    omega
  omega

theorem push_true_count_ge (cfg : Config) (st : Engine) (h : EngineInv cfg st)
    (ht : st.triggered = true) :
    cfg.frames ≤ (pushWindow cfg.frames st.window true).count true := by
  obtain ⟨hlen, htrig⟩ := h
  have hcnt := htrig ht
  have hc := count_drop_ge (st.window ++ [true]) (st.window.length + 1 - cfg.frames)
  have hcl := List.count_le_length (a := true) (l := st.window)
  have happ : (st.window ++ [true]).count true = st.window.count true + 1 := by
    simp [List.count_append]
  unfold pushWindow
  omega

theorem push_false_count_lt (cfg : Config) (st : Engine) (h : EngineInv cfg st)
    (ht : st.triggered = true) (hpos : 0 < cfg.frames) :
    (pushWindow cfg.frames st.window false).count true < cfg.frames := by
  by_contra hge
  push_neg at hge
  obtain ⟨hlen, htrig⟩ := h
  have hcnt := htrig ht
  have hcl := List.count_le_length (a := true) (l := st.window)
  have hlenfull : st.window.length = cfg.frames := by omega
  have hidx : st.window.length + 1 - cfg.frames = 1 := by omega
  have hw2 : pushWindow cfg.frames st.window false = st.window.drop 1 ++ [false] := by
    unfold pushWindow
    rw [hidx, List.drop_append_of_le_length (by omega)]
  rw [hw2] at hge
  have hlenw2 : (st.window.drop 1 ++ [false]).length = cfg.frames := by
    simp [List.length_drop]
    omega
  have hle2 := List.count_le_length (a := true) (l := st.window.drop 1 ++ [false])
  have hcw2 : (st.window.drop 1 ++ [false]).count true =
      (st.window.drop 1 ++ [false]).length := by omega
  have hall := List.count_eq_length.mp hcw2
  have hmem : (false : Bool) ∈ st.window.drop 1 ++ [false] := by simp
  exact absurd (hall false hmem) (by decide)

theorem engineInv_init (cfg : Config) : EngineInv cfg engineInit := by
  constructor
  · simp [engineInit]
  · intro h
    simp [engineInit] at h

theorem engineInv_step (cfg : Config) (st : Engine) (b : Bool)
    (h : EngineInv cfg st) : EngineInv cfg (analyseStep cfg st b) := by
  obtain ⟨hlen, htrig⟩ := h
  have hlen2 : ∀ c : Bool, (pushWindow cfg.frames st.window c).length ≤ cfg.frames := by
    intro c
    unfold pushWindow
    simp [List.length_drop]
    omega
  rw [analyseStep_eq]
  by_cases hb : b = true
  · subst hb
    by_cases hset : st.triggered = false ∧
        cfg.frames ≤ (pushWindow cfg.frames st.window true).count true
    · rw [if_pos rfl, if_pos hset]
      exact ⟨hlen2 true, fun _ => hset.2⟩
    · rw [if_pos rfl, if_neg hset]
      refine ⟨hlen2 true, fun ht => ?_⟩
      exact push_true_count_ge cfg st ⟨hlen, htrig⟩ ht
  · have hb' : b = false := by
      cases b
      · rfl
      · exact absurd rfl hb
    subst hb'
    by_cases hclr : st.triggered = true ∧
        (pushWindow cfg.frames st.window false).count true < cfg.frames
    · rw [if_neg (by decide), if_pos hclr]
      exact ⟨hlen2 false, fun hcontra => by simp at hcontra⟩
    · rw [if_neg (by decide), if_neg hclr]
      refine ⟨hlen2 false, fun ht => ?_⟩
      have ht' : st.triggered = true := ht
      have hnot : ¬ (pushWindow cfg.frames st.window false).count true < cfg.frames :=
        fun hlt => hclr ⟨ht', hlt⟩
      show cfg.frames ≤ (pushWindow cfg.frames st.window false).count true
      omega

theorem engineInv_foldl (cfg : Config) (bs : List Bool) (st : Engine)
    (h : EngineInv cfg st) : EngineInv cfg (bs.foldl (analyseStep cfg) st) := by
  induction bs generalizing st with
  | nil => exact h
  | cons b rest ih => exact ih _ (engineInv_step cfg st b h)

theorem engineInv_run (cfg : Config) (bs : List Bool) :
    EngineInv cfg (runBools cfg bs) :=
  engineInv_foldl cfg bs engineInit (engineInv_init cfg)

theorem triggered_window_all_true (cfg : Config) (st : Engine) (h : EngineInv cfg st)
    (ht : st.triggered = true) : ∀ x ∈ st.window, x = true := by
  obtain ⟨hlen, htrig⟩ := h
  have hcnt := htrig ht
  have hcl := List.count_le_length (a := true) (l := st.window)
  have hc : st.window.count true = st.window.length := by omega
  intro x hx
  exact (List.count_eq_length.mp hc x hx).symm

theorem analyseStep_eq_altStep (cfg : Config) (st : Engine) (b : Bool)
    (h : EngineInv cfg st) : analyseStep cfg st b = altStep cfg st b := by
  cases b
  · simp [analyseStep_eq, altStep]
  · by_cases hP : st.triggered = false ∧
        cfg.frames ≤ (pushWindow cfg.frames st.window true).count true
    · simp [analyseStep_eq, altStep, hP]
    · by_cases hQ : st.triggered = true ∧
          (pushWindow cfg.frames st.window true).count true < cfg.frames
      · exact absurd hQ.2 (not_lt.mpr (push_true_count_ge cfg st h hQ.1))
      · simp [analyseStep_eq, altStep, hP, hQ]

/-- The debounce rule at the level of frame-decision booleans (which fully
determine the debounce state, see `runFields_eq_runBools`). -/
theorem debounce_rule_bools (cfg : Config) (bs : List Bool) (b : Bool) :
    (analyseStep cfg (runBools cfg bs) b).triggered =
      if b = true ∧ (runBools cfg bs).triggered = false ∧
          cfg.frames ≤ (pushWindow cfg.frames (runBools cfg bs).window b).count true then
        true
      else if (runBools cfg bs).triggered = true ∧
          (pushWindow cfg.frames (runBools cfg bs).window b).count true < cfg.frames then
        false
      else (runBools cfg bs).triggered := by
  rw [analyseStep_eq_altStep cfg _ b (engineInv_run cfg bs)]
  simp only [altStep]
  split_ifs <;> rfl

/-- The window invariant and its consequences at the level of frame-decision
booleans. -/
theorem window_invariant_bools (cfg : Config) (bs : List Bool) :
    ((runBools cfg bs).triggered = true → ∀ x ∈ (runBools cfg bs).window, x = true) ∧
    (0 < cfg.frames → (runBools cfg bs).triggered = true →
      (analyseStep cfg (runBools cfg bs) false).triggered = false ∧
      (analyseStep cfg (runBools cfg bs) true).triggered = true) ∧
    (∀ b, analyseStep cfg (runBools cfg bs) b = altStep cfg (runBools cfg bs) b) := by
  have hinv := engineInv_run cfg bs
  refine ⟨fun ht => triggered_window_all_true cfg _ hinv ht,
    fun hpos ht => ⟨?_, ?_⟩,
    fun b => analyseStep_eq_altStep cfg _ b hinv⟩
  · rw [analyseStep_eq]
    have hlt := push_false_count_lt cfg _ hinv ht hpos
    simp [ht, hlt]
  · rw [analyseStep_eq]
    simp [ht]

/-! ## Theorems: connected-component analysis (claims C6, C7, and C2's fields) -/

theorem mem_cellList {h w : Nat} (c : Cell h w) : c ∈ cellList h w := by
  unfold cellList
  rw [List.mem_flatMap]
  exact ⟨c.1, List.mem_finRange c.1, List.mem_map.mpr ⟨c.2, List.mem_finRange c.2, rfl⟩⟩

theorem length_flatMap_rows {α : Type} {β : Type} (l : List α) (w : Nat) (mk : α → Fin w → β) :
    (l.flatMap (fun i => (List.finRange w).map (fun j => mk i j))).length = l.length * w := by
  induction l with
  | nil => simp
  | cons a t ih =>
    simp only [List.flatMap_cons, List.length_append, List.length_map, List.length_finRange, ih,
      List.length_cons]
    ring

theorem length_cellList (h w : Nat) : (cellList h w).length = h * w := by
  unfold cellList
  rw [length_flatMap_rows (List.finRange h) w (fun i j => (i, j)), List.length_finRange]

theorem mem_stepL_iff (ml : Nat) {h w : Nat} (vf : MVField h w) (S : List (Cell h w))
    (d : Cell h w) :
    d ∈ stepL ml vf S ↔ d ∈ S ∨ ∃ c ∈ S, rB ml vf c d = true := by
  unfold stepL
  rw [List.mem_filter]
  simp [mem_cellList d]

theorem mem_stepL_of_mem (ml : Nat) {h w : Nat} (vf : MVField h w)
    (S : List (Cell h w)) (d : Cell h w) (hd : d ∈ S) : d ∈ stepL ml vf S :=
  (mem_stepL_iff ml vf S d).mpr (Or.inl hd)

theorem stepL_mono (ml : Nat) {h w : Nat} (vf : MVField h w) {A B : List (Cell h w)}
    (hAB : ∀ x, x ∈ A → x ∈ B) (d : Cell h w) (hd : d ∈ stepL ml vf A) :
    d ∈ stepL ml vf B := by
  rcases (mem_stepL_iff ml vf A d).mp hd with hmem | ⟨c, hc, hr⟩
  · exact (mem_stepL_iff ml vf B d).mpr (Or.inl (hAB d hmem))
  · exact (mem_stepL_iff ml vf B d).mpr (Or.inr ⟨c, hAB c hc, hr⟩)

theorem reachAux_succ_outer (ml : Nat) {h w : Nat} (vf : MVField h w) (n : Nat)
    (S : List (Cell h w)) :
    reachAux ml vf (n + 1) S = stepL ml vf (reachAux ml vf n S) := by
  induction n generalizing S with
  | zero => rfl
  | succ n ih =>
    have h1 : reachAux ml vf (n + 1 + 1) S = reachAux ml vf (n + 1) (stepL ml vf S) := rfl
    rw [h1, ih]
    rfl

theorem reachAux_mono_set (ml : Nat) {h w : Nat} (vf : MVField h w) (n : Nat)
    {A B : List (Cell h w)} (hAB : ∀ x, x ∈ A → x ∈ B) :
    ∀ d, d ∈ reachAux ml vf n A → d ∈ reachAux ml vf n B := by
  induction n generalizing A B with
  | zero => exact hAB
  | succ n ih => exact ih (fun x hx => stepL_mono ml vf hAB x hx)

theorem mem_reachAux_succ (ml : Nat) {h w : Nat} (vf : MVField h w) (n : Nat)
    (S : List (Cell h w)) (d : Cell h w) (hd : d ∈ reachAux ml vf n S) :
    d ∈ reachAux ml vf (n + 1) S := by
  rw [reachAux_succ_outer]
  exact mem_stepL_of_mem ml vf _ d hd

theorem mem_reachAux_le (ml : Nat) {h w : Nat} (vf : MVField h w) {m n : Nat}
    (hmn : m ≤ n) (S : List (Cell h w)) (d : Cell h w)
    (hd : d ∈ reachAux ml vf m S) : d ∈ reachAux ml vf n S := by
  induction hmn with
  | refl => exact hd
  | step _ ih => exact mem_reachAux_succ ml vf _ S d ih

theorem mem_reachAux_self (ml : Nat) {h w : Nat} (vf : MVField h w) (n : Nat)
    (c : Cell h w) : c ∈ reachAux ml vf n [c] :=
  mem_reachAux_le ml vf (Nat.zero_le n) [c] c (by simp [reachAux])

theorem reachAux_sound (ml : Nat) {h w : Nat} (vf : MVField h w) (n : Nat)
    (c : Cell h w) : ∀ d, d ∈ reachAux ml vf n [c] →
    Relation.ReflTransGen (fun x y => rB ml vf x y = true) c d := by
  induction n with
  | zero =>
    intro d hd
    simp [reachAux] at hd
    subst hd
    exact Relation.ReflTransGen.refl
  | succ n ih =>
    intro d hd
    rw [reachAux_succ_outer] at hd
    rcases (mem_stepL_iff ml vf _ d).mp hd with hmem | ⟨e, he, hr⟩
    · exact ih d hmem
    · exact Relation.ReflTransGen.tail (ih e he) hr

theorem countP_mono_of_imp {α : Type} (p q : α → Bool) (l : List α)
    (hpq : ∀ a ∈ l, p a = true → q a = true) : l.countP p ≤ l.countP q := by
  induction l with
  | nil => exact le_refl _
  | cons a t ih =>
    have h1 := ih (fun x hx => hpq x (List.mem_cons_of_mem a hx))
    rw [List.countP_cons, List.countP_cons]
    by_cases hpa : p a = true
    · rw [if_pos hpa, if_pos (hpq a (List.mem_cons_self a t) hpa)]
      omega
    · rw [if_neg hpa]
      split_ifs <;> omega

theorem countP_strict_of_witness {α : Type} (p q : α → Bool) (l : List α) (d : α)
    (hd : d ∈ l) (hpd : p d = false) (hqd : q d = true)
    (hpq : ∀ a ∈ l, p a = true → q a = true) : l.countP p < l.countP q := by
  induction l with
  | nil => cases hd
  | cons a t ih =>
    rw [List.countP_cons, List.countP_cons]
    rcases List.mem_cons.mp hd with rfl | hdt
    · have hmono := countP_mono_of_imp p q t (fun x hx => hpq x (List.mem_cons_of_mem _ hx))
      rw [if_neg (by simp [hpd]), if_pos hqd]
      omega
    · have hstrict := ih hdt (fun x hx => hpq x (List.mem_cons_of_mem _ hx))
      by_cases hpa : p a = true
      · rw [if_pos hpa, if_pos (hpq a (List.mem_cons_self a t) hpa)]
        omega
      · rw [if_neg hpa]
        split_ifs <;> omega

theorem reachAux_stable (ml : Nat) {h w : Nat} (vf : MVField h w) (c : Cell h w) (k : Nat)
    (hstab : ∀ d, d ∈ stepL ml vf (reachAux ml vf k [c]) → d ∈ reachAux ml vf k [c]) :
    ∀ m d, (d ∈ reachAux ml vf (k + m) [c] ↔ d ∈ reachAux ml vf k [c]) := by
  intro m
  induction m with
  | zero =>
    intro d
    rw [Nat.add_zero]
  | succ m ih =>
    intro d
    rw [Nat.add_succ]
    constructor
    · intro hd
      rw [reachAux_succ_outer] at hd
      exact hstab d (stepL_mono ml vf (fun x hx => (ih x).mp hx) d hd)
    · intro hd
      exact mem_reachAux_succ ml vf (k + m) [c] d ((ih d).mpr hd)

theorem stepL_reachL_subset (ml : Nat) {h w : Nat} (vf : MVField h w) (c : Cell h w) :
    ∀ d, d ∈ stepL ml vf (reachL ml vf c) → d ∈ reachL ml vf c := by
  by_contra hcon
  push_neg at hcon
  obtain ⟨d0, hd0s, hd0n⟩ := hcon
  have hunstab : ∀ k, k ≤ h * w →
      ∃ d, d ∈ stepL ml vf (reachAux ml vf k [c]) ∧ d ∉ reachAux ml vf k [c] := by
    intro k hk
    by_contra hstab
    push_neg at hstab
    have hstab2 : ∀ d, d ∈ stepL ml vf (reachAux ml vf k [c]) → d ∈ reachAux ml vf k [c] :=
      fun d hd => hstab d hd
    have heq := reachAux_stable ml vf c k hstab2 (h * w - k)
    have hNk : k + (h * w - k) = h * w := by omega
    rw [hNk] at heq
    have hd0s2 : d0 ∈ stepL ml vf (reachAux ml vf k [c]) :=
      stepL_mono ml vf (fun x hx => (heq x).mp hx) d0 hd0s
    exact hd0n ((heq d0).mpr (hstab2 d0 hd0s2))
  have hgrow : ∀ k, k ≤ h * w →
      k + 1 ≤ (cellList h w).countP (fun d => decide (d ∈ reachAux ml vf k [c])) := by
    intro k
    induction k with
    | zero =>
      intro _
      have hpos : 0 < (cellList h w).countP (fun d => decide (d ∈ reachAux ml vf 0 [c])) := by
        rw [List.countP_pos_iff]
        exact ⟨c, mem_cellList c, by simp [reachAux]⟩
      omega
    | succ k ih =>
      intro hk1
      have hk : k ≤ h * w := by omega
      obtain ⟨dk, hdk1, hdk2⟩ := hunstab k hk
      have hdk1' : dk ∈ reachAux ml vf (k + 1) [c] := by
        rw [reachAux_succ_outer]
        exact hdk1
      have hlt := countP_strict_of_witness
        (fun d => decide (d ∈ reachAux ml vf k [c]))
        (fun d => decide (d ∈ reachAux ml vf (k + 1) [c]))
        (cellList h w) dk (mem_cellList dk)
        (by simp [hdk2])
        (by simp [hdk1'])
        (fun a _ ha => by
          simp only [decide_eq_true_eq] at ha ⊢
          exact mem_reachAux_succ ml vf k [c] a ha)
      have := ih hk
      omega
  have hfin := hgrow (h * w) (le_refl _)
  have hle := List.countP_le_length
    (p := fun d => decide (d ∈ reachAux ml vf (h * w) [c])) (l := cellList h w)
  rw [length_cellList] at hle
  omega

theorem reachL_complete (ml : Nat) {h w : Nat} (vf : MVField h w) (c d : Cell h w)
    (hrtg : Relation.ReflTransGen (fun x y => rB ml vf x y = true) c d) :
    d ∈ reachL ml vf c := by
  induction hrtg with
  | refl => exact mem_reachAux_self ml vf (h * w) c
  | tail _ h2 ih =>
    exact stepL_reachL_subset ml vf c _
      ((mem_stepL_iff ml vf _ _).mpr (Or.inr ⟨_, ih, h2⟩))

theorem rB_symm (ml : Nat) {h w : Nat} (vf : MVField h w) (c d : Cell h w)
    (hr : rB ml vf c d = true) : rB ml vf d c = true := by
  simp only [rB, adjB, Bool.and_eq_true, Bool.or_eq_true, decide_eq_true_eq] at hr ⊢
  refine ⟨⟨hr.1.2, hr.1.1⟩, ?_⟩
  rcases hr.2 with ⟨he, hd⟩ | ⟨he, hd⟩
  · exact Or.inl ⟨he.symm, hd.symm⟩
  · exact Or.inr ⟨he.symm, hd.symm⟩

theorem rtg_symm_of_symm {α : Type} {r : α → α → Prop}
    (hs : ∀ a b, r a b → r b a) {a b : α}
    (hab : Relation.ReflTransGen r a b) : Relation.ReflTransGen r b a := by
  induction hab with
  | refl => exact Relation.ReflTransGen.refl
  | tail _ h2 ih => exact Relation.ReflTransGen.head (hs _ _ h2) ih

theorem maskB_of_rtg (ml : Nat) {h w : Nat} (vf : MVField h w) {c d : Cell h w}
    (hrtg : Relation.ReflTransGen (fun x y => rB ml vf x y = true) c d) :
    d = c ∨ maskB ml vf d = true := by
  induction hrtg with
  | refl => exact Or.inl rfl
  | tail _ h2 _ =>
    right
    simp only [rB, Bool.and_eq_true] at h2
    exact h2.1.2

theorem reachL_eq_of_mem (ml : Nat) {h w : Nat} (vf : MVField h w) (c d : Cell h w)
    (hd : d ∈ reachL ml vf c) : ∀ e, (e ∈ reachL ml vf d ↔ e ∈ reachL ml vf c) := by
  have hcd := reachAux_sound ml vf (h * w) c d hd
  have hdc := rtg_symm_of_symm (fun x y => rB_symm ml vf x y) hcd
  intro e
  constructor
  · intro he
    exact reachL_complete ml vf c e (hcd.trans (reachAux_sound ml vf (h * w) d e he))
  · intro he
    exact reachL_complete ml vf d e (hdc.trans (reachAux_sound ml vf (h * w) c e he))

theorem filter_congr_mem {α : Type} (p q : α → Bool) (l : List α)
    (hpq : ∀ a ∈ l, p a = q a) : l.filter p = l.filter q := by
  induction l with
  | nil => rfl
  | cons a t ih =>
    rw [List.filter_cons, List.filter_cons, hpq a (List.mem_cons_self a t),
      ih (fun x hx => hpq x (List.mem_cons_of_mem a hx))]

theorem compSize_eq_of_mem (ml : Nat) {h w : Nat} (vf : MVField h w) (c d : Cell h w)
    (hd : d ∈ reachL ml vf c) : compSize ml vf d = compSize ml vf c := by
  unfold compSize
  rw [filter_congr_mem _ _ _ (fun e _ => decide_eq_decide.mpr (reachL_eq_of_mem ml vf c d hd e))]

theorem list_exists_min_image {α : Type} (f : α → Nat) (l : List α) (hl : l ≠ []) :
    ∃ r ∈ l, ∀ d ∈ l, f r ≤ f d := by
  induction l with
  | nil => exact absurd rfl hl
  | cons a t ih =>
    cases t with
    | nil =>
      refine ⟨a, List.mem_cons_self a [], fun d hd => ?_⟩
      rcases List.mem_cons.mp hd with rfl | hmem
      · exact le_refl _
      · cases hmem
    | cons b t2 =>
      obtain ⟨r, hr, hmin⟩ := ih (by simp)
      by_cases hle : f a ≤ f r
      · refine ⟨a, List.mem_cons_self a _, fun d hd => ?_⟩
        rcases List.mem_cons.mp hd with rfl | hmem
        · exact le_refl _
        · exact le_trans hle (hmin d hmem)
      · refine ⟨r, List.mem_cons_of_mem a hr, fun d hd => ?_⟩
        rcases List.mem_cons.mp hd with rfl | hmem
        · omega
        · exact hmin d hmem

theorem exists_rep (ml : Nat) {h w : Nat} (vf : MVField h w) (c : Cell h w)
    (hc : maskB ml vf c = true) :
    ∃ r, r ∈ compsList ml vf ∧ compSize ml vf r = compSize ml vf c := by
  have hself : c ∈ reachL ml vf c := mem_reachAux_self ml vf (h * w) c
  have hne : reachL ml vf c ≠ [] := by
    intro hnil
    rw [hnil] at hself
    cases hself
  obtain ⟨r, hr, hmin⟩ := list_exists_min_image cellIdx (reachL ml vf c) hne
  have hmaskr : maskB ml vf r = true := by
    rcases maskB_of_rtg ml vf (reachAux_sound ml vf (h * w) c r hr) with heq | hm
    · rw [heq]
      exact hc
    · exact hm
  have hcompeq := reachL_eq_of_mem ml vf c r hr
  refine ⟨r, ?_, compSize_eq_of_mem ml vf c r hr⟩
  unfold compsList
  rw [List.mem_filter]
  refine ⟨mem_cellList r, ?_⟩
  unfold isRep
  rw [Bool.and_eq_true]
  refine ⟨hmaskr, ?_⟩
  rw [List.all_eq_true]
  intro d _
  rw [Bool.or_eq_true]
  by_cases hdr : d ∈ reachL ml vf r
  · right
    rw [decide_eq_true_eq]
    exact hmin d ((hcompeq d).mp hdr)
  · left
    simp [hdr]

theorem le_foldr_max (x : Nat) (l : List Nat) (hx : x ∈ l) : x ≤ l.foldr max 0 := by
  induction l with
  | nil => cases hx
  | cons a t ih =>
    rcases List.mem_cons.mp hx with rfl | hmem
    · exact le_max_left _ _
    · exact le_trans (ih hmem) (le_max_right _ _)

theorem compSize_le_largest (ml : Nat) {h w : Nat} (vf : MVField h w) (c : Cell h w)
    (hc : maskB ml vf c = true) : compSize ml vf c ≤ largestRegion ml vf := by
  obtain ⟨r, hr, heq⟩ := exists_rep ml vf c hc
  rw [← heq]
  apply le_foldr_max
  unfold sizesList
  exact List.mem_cons_of_mem 0 (List.mem_map_of_mem _ hr)

theorem compsList_eq_nil (ml : Nat) {h w : Nat} (vf : MVField h w)
    (hm : ∀ c, maskB ml vf c = false) : compsList ml vf = [] := by
  unfold compsList
  rw [List.filter_eq_nil_iff]
  intro c _
  simp [isRep, hm c]

/-! ## Theorems: the claims about `analyse`'s field pipeline (C6, C7) -/

theorem floorSqrtAux_spec (n : Nat) : ∀ fuel lo, lo * lo ≤ n →
    n < (lo + fuel + 1) * (lo + fuel + 1) →
    floorSqrtAux fuel n lo * floorSqrtAux fuel n lo ≤ n ∧
      n < (floorSqrtAux fuel n lo + 1) * (floorSqrtAux fuel n lo + 1) := by
  intro fuel
  induction fuel with
  | zero =>
    intro lo hlo hub
    exact ⟨hlo, by simpa using hub⟩
  | succ fuel ih =>
    intro lo hlo hub
    by_cases hstep : (lo + 1) * (lo + 1) ≤ n
    · simp only [floorSqrtAux, if_pos hstep]
      refine ih (lo + 1) hstep ?_
      rw [show lo + 1 + fuel + 1 = lo + (fuel + 1) + 1 from by omega]
      exact hub
    · simp only [floorSqrtAux, if_neg hstep]
      exact ⟨hlo, by omega⟩

/-- `floorSqrt` really is the floor of the square root. -/
theorem floorSqrt_spec (n : Nat) :
    floorSqrt n * floorSqrt n ≤ n ∧ n < (floorSqrt n + 1) * (floorSqrt n + 1) := by
  have h2 : n + 1 ≤ (n + 1) * (n + 1) := Nat.le_mul_of_pos_left (n + 1) (by omega)
  have hub : n < (0 + n + 1) * (0 + n + 1) := by
    have h0 : (0 + n + 1) = n + 1 := by omega
    rw [h0]
    omega
  exact floorSqrtAux_spec n n 0 (by omega) hub

/-- C6: motionless frames.  If every computed macroblock magnitude is at most
`motionlength` (empty active mask) and the area threshold is positive, then
`largest = 0`, the frame decision is false, the sizes array has length
`count + 1 ≥ 1` (so the maximum is never taken over an empty collection), and
the `analyse` call pushes a false entry into the window. -/
theorem claim_C6_motionless (cfg : Config) {h w : Nat} (vf : MVField h w) (st : Engine)
    (hmag : ∀ c, mag vf c ≤ cfg.motionlength) (harea : 0 < cfg.area) :
    largestRegion cfg.motionlength vf = 0 ∧
    frameMotion cfg vf = false ∧
    (sizesList cfg.motionlength vf).length = labelCount cfg.motionlength vf + 1 ∧
    0 < (sizesList cfg.motionlength vf).length ∧
    analyse cfg vf st = analyseStep cfg st false := by
  have hmask : ∀ c, maskB cfg.motionlength vf c = false := by
    intro c
    simp only [maskB, decide_eq_false_iff_not, not_lt]
    exact hmag c
  have hnil := compsList_eq_nil cfg.motionlength vf hmask
  have hlg : largestRegion cfg.motionlength vf = 0 := by
    unfold largestRegion sizesList
    rw [hnil]
    rfl
  have hfm : frameMotion cfg vf = false := by
    unfold frameMotion
    rw [hlg]
    simp only [decide_eq_false_iff_not, not_le]
    exact harea
  refine ⟨hlg, hfm, ?_, ?_, ?_⟩
  · unfold sizesList labelCount
    simp
  · unfold sizesList
    simp
  · unfold analyse
    rw [hfm]

/-- Witness for C6: a 1×1 motionless field with the default configuration. -/
theorem claim_C6_motionless_witness :
    largestRegion cfgScenario.motionlength zeroF11 = 0 ∧
    frameMotion cfgScenario zeroF11 = false := by
  have hc := claim_C6_motionless cfgScenario zeroF11 engineInit (by decide) (by decide)
  exact ⟨hc.1, hc.2.1⟩

/-- C7: single-block noise suppression.  If the largest 4-connected active
region has exactly one block, the frame decision is false whenever
`area ≥ 2` and the cleaned debug field is entirely zero; in general the
cleaning zeroes every block not belonging to a region of size at least
`max(largest, 2)`, while the frame decision is computed from the raw
`largest`. -/
theorem claim_C7_noise_suppression :
    (∀ (cfg : Config) (h w : Nat) (vf : MVField h w),
      largestRegion cfg.motionlength vf = 1 →
      (2 ≤ cfg.area → frameMotion cfg vf = false) ∧
      (∀ c, cleanedField cfg.motionlength vf c = 0)) ∧
    (∀ (ml : Nat) (h w : Nat) (vf : MVField h w) (c : Cell h w),
      maskB ml vf c = false ∨ compSize ml vf c < max (largestRegion ml vf) 2 →
      cleanedField ml vf c = 0) ∧
    (∀ (cfg : Config) (h w : Nat) (vf : MVField h w),
      frameMotion cfg vf = decide (cfg.area ≤ largestRegion cfg.motionlength vf)) := by
  have hgen : ∀ (ml : Nat) (h w : Nat) (vf : MVField h w) (c : Cell h w),
      maskB ml vf c = false ∨ compSize ml vf c < max (largestRegion ml vf) 2 →
      cleanedField ml vf c = 0 := by
    intro ml h w vf c hc
    have hcond : ¬ ((maskB ml vf c &&
        decide (max (largestRegion ml vf) 2 ≤ compSize ml vf c)) = true) := by
      rcases hc with hm | hlt
      · simp [hm]
      · simp only [Bool.and_eq_true, decide_eq_true_eq, not_and, not_le]
        intro _
        exact hlt
    unfold cleanedField
    rw [if_neg hcond]
  refine ⟨?_, hgen, fun cfg h w vf => rfl⟩
  intro cfg h w vf hL
  constructor
  · intro harea
    unfold frameMotion
    rw [hL]
    simp only [decide_eq_false_iff_not, not_le]
    omega
  · intro c
    by_cases hm : maskB cfg.motionlength vf c = true
    · have hle := compSize_le_largest cfg.motionlength vf c hm
      rw [hL] at hle
      exact hgen cfg.motionlength h w vf c (Or.inr (by omega))
    · exact hgen cfg.motionlength h w vf c
        (Or.inl (by cases hmv : maskB cfg.motionlength vf c
                    · rfl
                    · exact absurd hmv hm))

/-- Witness for C7: a single active macroblock in a 2×2 grid. -/
theorem claim_C7_noise_suppression_witness :
    frameMotion cfgScenario singleBlockF = false ∧
    cleanedField cfgScenario.motionlength singleBlockF ((0 : Fin 2), (0 : Fin 2)) = 0 ∧
    cleanedField cfgScenario.motionlength singleBlockF ((1 : Fin 2), (1 : Fin 2)) = 0 := by
  have hc := claim_C7_noise_suppression
  have h1 := hc.1 cfgScenario 2 2 singleBlockF (by decide)
  exact ⟨h1.1 (by decide), h1.2 _,
    hc.2.1 cfgScenario.motionlength 2 2 singleBlockF _ (Or.inl (by decide))⟩

/-! ## Theorems: the C2 scenario -/

theorem runFields_eq_runBools (cfg : Config) {h w : Nat} (fs : List (MVField h w)) :
    runFields cfg fs = runBools cfg (fs.map (frameMotion cfg)) := by
  unfold runFields runBools
  generalize engineInit = st
  induction fs generalizing st with
  | nil => rfl
  | cons f rest ih =>
    simp only [List.foldl_cons, List.map_cons]
    exact ih _

theorem zeroF_frameMotion : frameMotion cfgScenario zeroF = false := by decide

theorem motionF_mask : maskB cfgScenario.motionlength motionF ((0 : Fin 5), (0 : Fin 6)) = true := by
  decide

theorem motionF_compSize :
    (25 : Nat) ≤ compSize cfgScenario.motionlength motionF ((0 : Fin 5), (0 : Fin 6)) := by
  decide

theorem motionF_frameMotion : frameMotion cfgScenario motionF = true := by
  have h2 := compSize_le_largest cfgScenario.motionlength motionF _ motionF_mask
  have h3 := le_trans motionF_compSize h2
  unfold frameMotion
  exact decide_eq_true h3

theorem map_scenario :
    scenarioFields.map (frameMotion cfgScenario) = scenarioBools := by
  simp [scenarioFields, scenarioBools, zeroF_frameMotion, motionF_frameMotion]

theorem triggeredAfter_eq (k : Nat) :
    triggeredAfter k = (runBools cfgScenario (scenarioBools.take k)).triggered := by
  unfold triggeredAfter
  rw [runFields_eq_runBools, List.map_take, map_scenario]

/-- C2 counterexample: in the claimed scenario the trigger does become true at
frame 6, but it becomes false already at frame 7 (the first motionless frame),
not at frame 10 as the claim states. -/
theorem claim_C2_counterexample :
    triggeredAfter 6 = true ∧ triggeredAfter 7 = false := by
  constructor <;> rw [triggeredAfter_eq] <;> decide

/-- C2 amended: with `areaThreshold = 25`, `motionlength = 10`, `frames = 4`
and the 30-block region on frames 3-6 of 10, the trigger is false after frames
1-5, becomes true exactly at frame 6, and becomes false exactly at frame 7
(one motionless frame drops the window below 4 true entries). -/
theorem claim_C2_amended_scenario :
    (List.range 11).map triggeredAfter =
      [false, false, false, false, false, false, true, false, false, false, false] := by
  have he : triggeredAfter = fun k => (runBools cfgScenario (scenarioBools.take k)).triggered :=
    funext triggeredAfter_eq
  rw [he]
  decide

/-! ## Theorems: ring-buffer drain and controller cycle (claims C3, C4, C5, C8) -/

theorem save_buffer_active (s : CircStream) :
    save_buffer true (some s) =
      (some (s.data.drop (initialDrainPos s)), some emptyStream) := rfl

/-- C3 counterexample: with a recording session active and a buffer holding
bytes but no SPS header frame, `save_buffer` does NOT skip the event — it
drains the buffer from the current read position and returns a real output
file, so the controller enters the flushing phase instead of remaining Idle. -/
theorem claim_C3_counterexample :
    findHeader c3Stream.frames = none ∧
    (save_buffer true (some c3Stream)).1 = some [7, 8] := by
  exact ⟨rfl, rfl⟩

/-- C3 amended: only the unavailable-collaborator half of the claim holds.
When the camera is not recording or the stream is absent, `save_buffer`
returns `(None, None)` and `run` skips the trigger event, remaining Idle with
no sink opened and no exception.  When the buffer merely lacks a header frame,
the drain is not skipped: `save_buffer` reads from the current (un-seeked)
position and returns that output. -/
theorem claim_C3_amended_save_buffer :
    (∀ s : CircStream, save_buffer false (some s) = (none, some s)) ∧
    (∀ r : Bool, save_buffer r none = (none, none)) ∧
    (∀ s : CircStream, findHeader s.frames = none →
      (save_buffer true (some s)).1 = some (s.data.drop s.pos)) ∧
    (∀ sc : Script, sc.available = false →
      runCycle sc = { opened := 0, closedAll := true, exn := none }) := by
  refine ⟨fun s => rfl, fun r => rfl, fun s hs => ?_, fun sc hsc => ?_⟩
  · have hpos : initialDrainPos s = s.pos := by
      unfold initialDrainPos
      rw [hs]
    rw [save_buffer_active, hpos]
  · unfold runCycle
    rw [if_pos hsc]

/-- Witness for the amended C3. -/
theorem claim_C3_amended_save_buffer_witness :
    (save_buffer true (some c3Stream)).1 = some (c3Stream.data.drop c3Stream.pos) ∧
    runCycle { available := false, openFault := none, drainFault := none, appendFaults := [] }
      = { opened := 0, closedAll := true, exn := none } := by
  have hc := claim_C3_amended_save_buffer
  exact ⟨hc.2.2.1 c3Stream (by decide), hc.2.2.2 _ (by decide)⟩

/-- C4 counterexample: an OSError raised by `io.open` at the start of a
flushing cycle escapes `run`'s loop body — the except clause matches only
`picamera.PiCameraError`, so the claimed catch-log-continue behaviour fails. -/
theorem claim_C4_counterexample :
    (runCycle c4Script).exn = some PyExc.osError ∧ (runCycle c4Script).exn ≠ none := by
  exact ⟨rfl, by decide⟩

/-- C4 amended: I/O errors (OSError) raised while opening or writing the
output sink are NOT caught at the event boundary: `run`'s handler matches only
`picamera.PiCameraError`, so the OSError propagates out of the loop body
(terminating `run`), wherever it strikes — at `io.open`, during
`save_buffer`'s locked drain, or inside the flushing loop.  Only in the last
case does the inner try/finally close the sink first. -/
theorem claim_C4_amended_io_error (sc : Script) (hav : sc.available = true) :
    (sc.openFault = some PyExc.osError →
      runCycle sc = { opened := 0, closedAll := true, exn := some PyExc.osError }) ∧
    (sc.openFault = none → sc.drainFault = some PyExc.osError →
      runCycle sc = { opened := 1, closedAll := false, exn := some PyExc.osError }) ∧
    (sc.openFault = none → sc.drainFault = none →
      firstFault sc.appendFaults = some PyExc.osError →
      runCycle sc = { opened := 1, closedAll := true, exn := some PyExc.osError }) := by
  have hne : ¬ sc.available = false := by
    rw [hav]
    decide
  refine ⟨fun h1 => ?_, fun h1 h2 => ?_, fun h1 h2 h3 => ?_⟩
  · unfold runCycle
    rw [if_neg hne, h1]
    rfl
  · unfold runCycle
    rw [if_neg hne, h1, h2]
    rfl
  · unfold runCycle
    rw [if_neg hne, h1, h2, h3]
    rfl

/-- Witness for the amended C4: an OSError on the second flushing-loop
iteration propagates with the sink closed. -/
theorem claim_C4_amended_io_error_witness :
    runCycle c4LoopScript = { opened := 1, closedAll := true, exn := some PyExc.osError } :=
  (claim_C4_amended_io_error c4LoopScript rfl).2.2 rfl rfl rfl

/-- C5 counterexample: an error during `save_buffer`'s initial drain strikes
after `io.open` where no try/finally protects the file, so the cycle opens a
sink and never closes it — a file-handle leak, contradicting the claimed
close-on-every-exit-path invariant. -/
theorem claim_C5_counterexample :
    (runCycle c5Script).opened = 1 ∧ (runCycle c5Script).closedAll = false := by
  exact ⟨rfl, rfl⟩

/-- C5 amended: each cycle opens at most one sink, and whenever `save_buffer`'s
locked drain completes without raising (so any sink it opened is returned to
`run`), every opened sink is closed by the end of the cycle — the flushing
loop's try/finally guarantees this on every exit path, including exceptions in
the loop.  Moreover a cycle that does leak its sink always ends with an
exception escaping `run`, so the controller never reaches a second cycle with
a leaked sink still open. -/
theorem claim_C5_amended_cleanup (sc : Script) (hd : sc.drainFault = none) :
    (runCycle sc).opened ≤ 1 ∧
    (runCycle sc).closedAll = true ∧
    (∀ sc2 : Script, (runCycle sc2).closedAll = false → (runCycle sc2).exn ≠ none) := by
  have hgen : ∀ sc2 : Script, (runCycle sc2).closedAll = false → (runCycle sc2).exn ≠ none := by
    intro sc2 hcl
    rcases sc2 with ⟨av, of, df, af⟩
    cases av
    · simp [runCycle] at hcl
    · cases of with
      | some e => simp [runCycle] at hcl
      | none =>
        cases df with
        | some e => cases e <;> simp [runCycle, exceptPiCamera]
        | none => simp [runCycle] at hcl
  rcases sc with ⟨av, of, df, af⟩
  have hd2 : df = none := hd
  subst hd2
  refine ⟨?_, ?_, hgen⟩
  · cases av
    · simp [runCycle]
    · cases of with
      | some e => simp [runCycle]
      | none => simp [runCycle]
  · cases av
    · simp [runCycle]
    · cases of with
      | some e => simp [runCycle]
      | none => simp [runCycle]

/-- Witness for the amended C5. -/
theorem claim_C5_amended_cleanup_witness :
    (runCycle cleanScript).closedAll = true ∧
    (runCycle c5Script).exn ≠ none := by
  have hc := claim_C5_amended_cleanup cleanScript rfl
  exact ⟨hc.2.1, hc.2.2 c5Script (by decide)⟩

theorem appendedBytes_app_cons (bs : List Nat) (rest : List BufEv) :
    appendedBytes (BufEv.app bs :: rest) = bs ++ appendedBytes rest := rfl

theorem appendedBytes_drain_cons (rest : List BufEv) :
    appendedBytes (BufEv.drain :: rest) = appendedBytes rest := rfl

theorem bufRun_invariant (evs : List BufEv) : ∀ (out : List Nat) (s : CircStream),
    s.pos = 0 →
    ((evs.foldl bufStep (out, s)).1 ++ (evs.foldl bufStep (out, s)).2.data
        = out ++ s.data ++ appendedBytes evs) ∧
      (evs.foldl bufStep (out, s)).2.pos = 0 := by
  induction evs with
  | nil =>
    intro out s hpos
    exact ⟨by simp [appendedBytes], hpos⟩
  | cons e rest ih =>
    intro out s hpos
    cases e with
    | app bs =>
      have hstep : bufStep (out, s) (BufEv.app bs) = (out, { s with data := s.data ++ bs }) := rfl
      have hrec := ih out { s with data := s.data ++ bs } hpos
      rw [List.foldl_cons, hstep]
      refine ⟨?_, hrec.2⟩
      rw [hrec.1, appendedBytes_app_cons]
      simp
    | drain =>
      have hstep : bufStep (out, s) BufEv.drain = (out ++ s.data.drop s.pos, emptyStream) := rfl
      have hrec := ih (out ++ s.data.drop s.pos) emptyStream rfl
      rw [List.foldl_cons, hstep]
      refine ⟨?_, hrec.2⟩
      rw [hrec.1, appendedBytes_drain_cons, hpos]
      simp [emptyStream]

/-- C8 counterexample: with the first SPS header at position 2 of a 3-byte
buffer, the initial drain starts at the header, so the concatenated output is
`[3, 4]` while the full byte stream appended since the last truncate is
`[1, 2, 3, 4]` — the claimed equality fails whenever the header is not at
position 0. -/
theorem claim_C8_counterexample :
    (flushRun c8Stream c8Events).1 = [3, 4] ∧
    (flushRun c8Stream c8Events).1 ≠ c8Stream.data ++ appendedBytes c8Events := by
  exact ⟨rfl, by decide⟩

/-- C8 amended: the drain pipeline is lossless and ordered FROM THE CHOSEN
HEADER POSITION ONWARD: for every initial buffer state and every
append/drain interleaving, the bytes written to the sink followed by the bytes
still buffered equal the initial buffer's suffix from the header position
(falling back to the current read position when no header exists) followed by
all subsequently appended bytes, in order; the read position stays 0, and
every drain leaves the buffer empty.  The prefix of the initial buffer before
the chosen header position is discarded, never written. -/
theorem claim_C8_amended_drain (s0 : CircStream) (evs : List BufEv) :
    (flushRun s0 evs).1 ++ (flushRun s0 evs).2.data
        = s0.data.drop (initialDrainPos s0) ++ appendedBytes evs ∧
      (flushRun s0 evs).2.pos = 0 ∧
      ∀ p : List BufEv, (flushRun s0 (p ++ [BufEv.drain])).2.data = [] := by
  have hfr : ∀ evs2 : List BufEv, flushRun s0 evs2 =
      evs2.foldl bufStep (s0.data.drop (initialDrainPos s0), emptyStream) := by
    intro evs2
    simp only [flushRun, save_buffer_active]
  have hinv := bufRun_invariant evs (s0.data.drop (initialDrainPos s0)) emptyStream rfl
  refine ⟨?_, ?_, ?_⟩
  · rw [hfr, hinv.1]
    simp [emptyStream]
  · rw [hfr]
    exact hinv.2
  · intro p
    rw [hfr, List.foldl_append]
    rcases hx : p.foldl bufStep (s0.data.drop (initialDrainPos s0), emptyStream) with ⟨o2, s2⟩
    rfl

/-! ## Theorems: the trigger wait primitive (claim C9) -/

/-- C9 counterexample: with the trigger constantly set — its state never
changes — the wait reports success immediately and at every timeout, so
`wait`'s result does not mean "a change occurred": Python's `Event.wait` is
level-triggered on the set state, not change-triggered. -/
theorem claim_C9_counterexample :
    eventWait constTrueTrace 0 = true ∧ eventWait constTrueTrace 5 = true := by
  exact ⟨by decide, by decide⟩

/-- C9 amended: `wait(timeout)` returns true iff the trigger flag is up at
some instant within the timeout (`threading.Event.wait` semantics): the wait
is ended by the flag being set — never by a set→clear transition — and its
result reports "the set flag was observed", not "the state changed". -/
theorem claim_C9_amended_wait (trace : Nat → Bool) (timeout : Nat) :
    eventWait trace timeout = true ↔ ∃ t, t ≤ timeout ∧ trace t = true := by
  unfold eventWait
  rw [List.any_eq_true]
  constructor
  · rintro ⟨t, ht, htr⟩
    refine ⟨t, ?_, htr⟩
    have := List.mem_range.mp ht
    omega
  · rintro ⟨t, ht, htr⟩
    exact ⟨t, List.mem_range.mpr (by omega), htr⟩

/-! ## Theorems: claims C1 and C10 over sequences of `analyse` calls -/

/-- C1: the debounce rule of `analyse`.  For every configuration, every
sequence of `analyse` calls and every next input field, at that call, with the
window already updated by the new frame decision `frameMotion`: (i) if
`frameMotion` is true, the engine is untriggered and the window holds at least
`frames` true entries, the trigger is set; (ii) otherwise, if the engine is
triggered and the window holds fewer than `frames` true entries, the trigger
is cleared; (iii) in every other case the trigger is unchanged. -/
theorem claim_C1_debounce_rule (cfg : Config) {h w : Nat} (fs : List (MVField h w))
    (vf : MVField h w) :
    (analyse cfg vf (runFields cfg fs)).triggered =
      if frameMotion cfg vf = true ∧ (runFields cfg fs).triggered = false ∧
          cfg.frames ≤
            (pushWindow cfg.frames (runFields cfg fs).window (frameMotion cfg vf)).count true then
        true
      else if (runFields cfg fs).triggered = true ∧
          (pushWindow cfg.frames (runFields cfg fs).window (frameMotion cfg vf)).count true
            < cfg.frames then
        false
      else (runFields cfg fs).triggered := by
  have hb := debounce_rule_bools cfg (fs.map (frameMotion cfg)) (frameMotion cfg vf)
  rw [← runFields_eq_runBools] at hb
  exact hb

/-- C10: the implicit window invariant.  In every state reachable by a
sequence of `analyse` calls, if the trigger is up then every entry of the
window is true; consequently, from a triggered state (`frames > 0`) the
trigger is cleared exactly at the first `analyse` call whose `frameMotion` is
false and survives every motion-true call; and the code's
motion-false-guarded clear branch (`elif`) agrees with the unguarded offset
rule on every reachable state. -/
theorem claim_C10_window_invariant (cfg : Config) {h w : Nat} (fs : List (MVField h w)) :
    ((runFields cfg fs).triggered = true → ∀ x ∈ (runFields cfg fs).window, x = true) ∧
    (0 < cfg.frames → (runFields cfg fs).triggered = true →
      ∀ vf : MVField h w,
        (frameMotion cfg vf = false → (analyse cfg vf (runFields cfg fs)).triggered = false) ∧
        (frameMotion cfg vf = true → (analyse cfg vf (runFields cfg fs)).triggered = true)) ∧
    (∀ vf : MVField h w,
      analyse cfg vf (runFields cfg fs) = altStep cfg (runFields cfg fs) (frameMotion cfg vf)) := by
  have hb := window_invariant_bools cfg (fs.map (frameMotion cfg))
  rw [← runFields_eq_runBools] at hb
  refine ⟨hb.1, fun hpos ht vf => ?_, fun vf => hb.2.2 (frameMotion cfg vf)⟩
  have h2 := hb.2.1 hpos ht
  constructor
  · intro hfm
    unfold analyse
    rw [hfm]
    exact h2.1
  · intro hfm
    unfold analyse
    rw [hfm]
    exact h2.2

/-- Witness for C10: four single-block frames with `area = 1` reach a
triggered state; a motionless field then clears the trigger, a further
single-block field keeps it. -/
theorem claim_C10_window_invariant_witness :
    (analyse cfgOne zeroF22 (runFields cfgOne sblocks4)).triggered = false ∧
    (analyse cfgOne singleBlockF (runFields cfgOne sblocks4)).triggered = true ∧
    (false ∉ (runFields cfgOne sblocks4).window) ∧
    analyse cfgOne singleBlockF (runFields cfgOne sblocks4)
      = altStep cfgOne (runFields cfgOne sblocks4) (frameMotion cfgOne singleBlockF) := by
  have hc := claim_C10_window_invariant cfgOne sblocks4
  have h2 := hc.2.1 (by decide) (by decide)
  exact ⟨(h2 zeroF22).1 (by decide), (h2 singleBlockF).2 (by decide),
    fun hm => absurd (hc.1 (by decide) false hm) (by decide), hc.2.2 singleBlockF⟩
